import Mathlib

/-!
Verification development for the urhook AArch64 runtime hooking library.

The definitions below are a shallow embedding of the C++ sources:
  * `Asm.*`                : src/src/assembler/arm64-v8a/assembler.cpp
  * `choose_patch_sequence`: src/src/inline_hook.cpp (patch planner)
  * `relocate_jump_insn`   : src/src/inline_hook.cpp (branch case of
                             relocate_trampoline)
  * `decode_bcond_target`  : src/src/disassembler.cpp (B.cond decode)
  * `Mem.atomic_patch`     : src/src/memory.cpp
  * mid-hook stub/events   : src/src/mid_hook.cpp
  * registry state machine : src/src/inline_hook.cpp (Hook class)

Machine integers are modelled as `Nat`/`Int` with explicit wrap-around
(`mask64`, `s64`) where the C++ code relies on fixed-width arithmetic.
Fallible C++ code (throwing `std::runtime_error` / `std::bad_variant_access`)
is modelled with `Except String`.
-/

/-- 2^64, the modulus of `uintptr_t` arithmetic. -/
def two64 : Nat := 18446744073709551616

/-- Truncate a natural number to 64 bits (`uintptr_t` conversion). -/
def mask64 (n : Nat) : Nat := n % two64

/-- Reinterpret a 64-bit unsigned value as a signed `int64_t`. -/
def s64 (n : Nat) : Int :=
  if mask64 n < 9223372036854775808 then (mask64 n : Int)
  else (mask64 n : Int) - 18446744073709551616

/-- `(int64_t)(a - b)` where `a`, `b` are `uintptr_t`: wrap-around
subtraction reinterpreted as signed. -/
def sub64 (a b : Nat) : Int := s64 (a + (two64 - mask64 b))

/-- `(uint32_t)i` for a signed 64-bit value `i`. -/
def u32 (i : Int) : Nat := (i % 4294967296).toNat

/-- `addr & ~0xFFF` on a `uintptr_t`. -/
def pageOf (n : Nat) : Nat := mask64 n - mask64 n % 4096

/-- Little-endian byte image of a list of 32-bit instruction words
(`reinterpret_cast<const uint8_t*>(words.data())`). -/
def wordsToBytes (ws : List Nat) : List Nat :=
  ws.flatMap fun w => [w % 256, w / 256 % 256, w / 65536 % 256, w / 16777216 % 256]

/-- Overwrite the bytes starting at `a` in byte-addressable memory `m`. -/
def writeBytes (m : Nat → Nat) (a : Nat) (bs : List Nat) : Nat → Nat :=
  fun x => if a ≤ x ∧ x < a + bs.length then bs.getD (x - a) 0 else m x

/-- Read `n` bytes starting at `a`. -/
def readBytes (m : Nat → Nat) (a n : Nat) : List Nat :=
  (List.range n).map fun i => m (a + i)

/-! ## The AArch64 encoder (src/src/assembler/arm64-v8a/assembler.cpp)

Registers are identified by their `ur::assembler::Register` enum value:
X0..X28 = 0..28, FP = 29, LR = 30, SP = 31, ZR = 32, W0..WZR = 64..96,
S0..S31 = 100..131, D0..D31 = 150..181, Q0..Q31 = 200..231. -/

namespace Asm

/-- The assembler's code buffer: emitted 32-bit words plus the logical
current address (`current_address_`). -/
structure AsmState where
  code : List Nat
  addr : Nat
  deriving Repr, DecidableEq

/-- `AssemblerAArch64::AssemblerAArch64(start_address)`. -/
def asmInit (addr : Nat) : AsmState := ⟨[], addr⟩

/-- `AssemblerAArch64::emit`. -/
def emit (w : Nat) (s : AsmState) : AsmState :=
  ⟨s.code ++ [w % 4294967296], s.addr + 4⟩

/-- `is_w_register` (W0 = 64 .. WZR = 96). -/
def is_w_register (r : Nat) : Bool := decide (64 ≤ r ∧ r ≤ 96)

/-- `is_x_register` (X0..ZR and SP, i.e. 0..32). -/
def is_x_register (r : Nat) : Bool := decide (r ≤ 32)

/-- `is_s_register`. -/
def is_s_register (r : Nat) : Bool := decide (100 ≤ r ∧ r ≤ 131)

/-- `is_d_register`. -/
def is_d_register (r : Nat) : Bool := decide (150 ≤ r ∧ r ≤ 181)

/-- `is_q_register`. -/
def is_q_register (r : Nat) : Bool := decide (200 ≤ r ∧ r ≤ 231)

/-- `AssemblerAArch64::to_reg`: 5-bit hardware index of a register. -/
def to_reg (r : Nat) : Nat :=
  if r = 32 ∨ r = 96 then 31
  else if is_w_register r then r - 64
  else if is_s_register r then r - 100
  else if is_d_register r then r - 150
  else if is_q_register r then r - 200
  else r

/-- `AssemblerAArch64::b(uintptr_t)`. -/
def b (target : Nat) (s : AsmState) : Except String AsmState :=
  let off := sub64 target s.addr
  if off < -134217728 ∨ off > 134217724 then .error "Branch offset out of range"
  else .ok (emit (0x14000000 ||| ((u32 off >>> 2) &&& 0x3FFFFFF)) s)

/-- `AssemblerAArch64::b(Condition, uintptr_t)`; the condition is its
4-bit encoding value. -/
def b_cond (cond : Nat) (target : Nat) (s : AsmState) : Except String AsmState :=
  let off := sub64 target s.addr
  if off < -524288 ∨ off > 524284 then .error "Conditional branch offset out of range"
  else .ok (emit (0x54000000 ||| (((u32 off >>> 2) &&& 0x7FFFF) <<< 5) ||| cond) s)

/-- `AssemblerAArch64::cbz`. -/
def cbz (rt target : Nat) (s : AsmState) : Except String AsmState :=
  let off := sub64 target s.addr
  if off < 0 ∨ off > 524284 then .error "CBZ offset out of range"
  else .ok (emit (0xB4000000 ||| (((u32 off >>> 2) &&& 0x7FFFF) <<< 5) ||| to_reg rt) s)

/-- `AssemblerAArch64::cbnz`. -/
def cbnz (rt target : Nat) (s : AsmState) : Except String AsmState :=
  let off := sub64 target s.addr
  if off < 0 ∨ off > 524284 then .error "CBNZ offset out of range"
  else .ok (emit (0xB5000000 ||| (((u32 off >>> 2) &&& 0x7FFFF) <<< 5) ||| to_reg rt) s)

/-- `AssemblerAArch64::br`. -/
def br (r : Nat) (s : AsmState) : AsmState :=
  emit (0xD61F0000 ||| (to_reg r <<< 5)) s

/-- `AssemblerAArch64::blr`. -/
def blr (r : Nat) (s : AsmState) : AsmState :=
  emit (0xD63F0000 ||| (to_reg r <<< 5)) s

/-- `AssemblerAArch64::movz` (`imm` is a `uint16_t`). -/
def movz (rd imm shift : Nat) (s : AsmState) : AsmState :=
  let sf := if is_w_register rd then 0 else 1
  emit ((sf <<< 31) ||| 0x52800000 ||| ((shift / 16) <<< 21) ||| ((imm % 65536) <<< 5) ||| to_reg rd) s

/-- `AssemblerAArch64::movk` (`imm` is a `uint16_t`). -/
def movk (rd imm shift : Nat) (s : AsmState) : AsmState :=
  let sf := if is_w_register rd then 0 else 1
  emit ((sf <<< 31) ||| 0x72800000 ||| ((shift / 16) <<< 21) ||| ((imm % 65536) <<< 5) ||| to_reg rd) s

/-- `AssemblerAArch64::mov(Register, uint64_t)`: MOVZ for the first
non-zero 16-bit chunk, MOVK for the rest; `MOVZ rd, #0` if `imm` is 0. -/
def mov_imm (rd imm : Nat) (s : AsmState) : AsmState :=
  let imm := mask64 imm
  let limit := if is_w_register rd then 32 else 64
  let step := fun (acc : AsmState × Bool) (shift : Nat) =>
    let chunk := (imm >>> shift) &&& 0xFFFF
    if chunk ≠ 0 then
      if acc.2 then (movz rd chunk shift acc.1, false)
      else (movk rd chunk shift acc.1, false)
    else acc
  let r := ((List.range (limit / 16)).map (· * 16)).foldl step (s, true)
  if r.2 then movz rd 0 0 r.1 else r.1

/-- `AssemblerAArch64::adrp`: the page offset must fit a signed 32-bit
value; `>> 12` / `>> 14` are arithmetic shifts (floor division) and the
masks act on the two's complement representation (`Int.emod`). -/
def adrp (rd target : Nat) (s : AsmState) : Except String AsmState :=
  let off := sub64 (pageOf target) (pageOf s.addr)
  if off < -2147483648 ∨ off > 2147483647 then .error "ADRP offset out of range"
  else
    let immlo := ((Int.fdiv off 4096) % 4).toNat
    let immhi := ((Int.fdiv off 16384) % 524288).toNat
    .ok (emit (0x90000000 ||| (immlo <<< 29) ||| (immhi <<< 5) ||| to_reg rd) s)

/-- `AssemblerAArch64::add(Register, Register, uint16_t, bool)`. -/
def add_imm (rd rn imm : Nat) (shift : Bool) (s : AsmState) : AsmState :=
  let sf := if is_w_register rd then 0 else 1
  let sh := if shift then 1 else 0
  emit ((sf <<< 31) ||| 0x11000000 ||| (sh <<< 22) ||| ((imm % 65536) <<< 10) ||| (to_reg rn <<< 5) ||| to_reg rd) s

/-- `AssemblerAArch64::gen_abs_jump`: MOVZ/MOVK×3 building the 64-bit
destination, then `BR reg` — always 5 words (20 bytes). -/
def gen_abs_jump (destination reg : Nat) (s : AsmState) : AsmState :=
  let d := mask64 destination
  br reg
    (movk reg ((d >>> 48) &&& 0xFFFF) 48
      (movk reg ((d >>> 32) &&& 0xFFFF) 32
        (movk reg ((d >>> 16) &&& 0xFFFF) 16
          (movz reg (d &&& 0xFFFF) 0 s))))

/-- `AssemblerAArch64::gen_load_address` (alias for `mov(rd, imm)`). -/
def gen_load_address (dest address : Nat) (s : AsmState) : AsmState :=
  mov_imm dest address s

/-- `Assembler::ABS_JUMP_SIZE`. -/
def ABS_JUMP_SIZE : Nat := 20

end Asm

open Asm in
/-- `choose_patch_sequence` (src/src/inline_hook.cpp): shortest feasible
patch from `target` to `dest`, priority B (4 B) → ADRP+ADD+BR (12 B) →
absolute jump (20 B).  Returns (code words, patch size in bytes). -/
def choose_patch_sequence (target dest : Nat) : List Nat × Nat :=
  match Asm.b dest (asmInit target) with
  | .ok s => (s.code, 4 * s.code.length)
  | .error _ =>
    match Asm.adrp 16 dest (asmInit target) with
    | .ok s1 =>
      let s2 := add_imm 16 16 (dest &&& 0xFFF) false s1
      let s3 := Asm.br 16 s2
      (s3.code, 4 * s3.code.length)
    | .error _ =>
      let s := gen_abs_jump dest 16 (asmInit target)
      (s.code, 4 * s.code.length)

/-- The patch length demanded by the specification's words: a 4-byte B
within ±128 MiB, else a 12-byte ADRP+ADD+BR within the 33-bit ADRP range
(±4 GiB of page offset), else the 20-byte absolute jump.  Stated from the
spec for comparison with `choose_patch_sequence`. -/
def spec_patch_length (target dest : Nat) : Nat :=
  if -134217728 ≤ sub64 dest target ∧ sub64 dest target ≤ 134217728 then 4
  else if -4294967296 ≤ sub64 (pageOf dest) (pageOf target) ∧
          sub64 (pageOf dest) (pageOf target) ≤ 4294967296 then 12
  else 20

/-! ## Decoder output records (src/src/disassembler.cpp)

Only the fields that `relocate_trampoline` consumes are modelled. The
decoder stores resolved absolute branch targets as immediates (computed
as `uint64_t`, held in an `int64_t` variant); we keep the 64-bit value. -/

/-- `ur::disassembler::InstructionId` (the subset used here). -/
inductive InstrId
  | B | BL | BR | BLR | B_COND | CBZ | CBNZ | TBZ | TBNZ | RET
  | ADD | LDR | STR | ADRP | ADR | LDR_LIT | MOV | NOP | INVALID
  deriving Repr, DecidableEq

/-- `ur::disassembler::InstructionGroup`. -/
inductive InstrGroup
  | INVALID | JUMP | DATA_PROCESSING | LOAD_STORE | SYSTEM
  deriving Repr, DecidableEq

/-- `ur::disassembler::Operand`: a tagged variant of register, immediate,
or memory operand. -/
inductive DOperand
  | reg (r : Nat)
  | imm (v : Nat)
  | mem (base : Nat) (disp : Int)
  deriving Repr, DecidableEq

/-- The decoded-instruction record as consumed by `relocate_trampoline`. -/
structure DInsn where
  address : Nat
  word : Nat
  id : InstrId
  group : InstrGroup
  cond : Nat
  operands : List DOperand
  pc_rel : Bool
  deriving Repr, DecidableEq

/-- `std::get<int64_t>(operand.value)`: succeeds only on an immediate
operand, otherwise throws `std::bad_variant_access`. -/
def getImm : DOperand → Except String Nat
  | .imm v => .ok v
  | _ => .error "bad variant access"

open Asm in
/-- The `InstructionGroup::JUMP` arm of `relocate_trampoline`
(src/src/inline_hook.cpp lines 297-310): read `operands[0]` as an
immediate (`std::get<int64_t>`), then re-encode B.cond to the original
absolute target, or BL as `load_address X16; BLR X16`, or anything else
as `load_address X16; BR X16`. -/
def relocate_jump_insn (insn : DInsn) (s : AsmState) : Except String AsmState :=
  match insn.operands with
  | [] => .error "bad variant access"
  | o :: _ =>
    match getImm o with
    | .error e => .error e
    | .ok target_addr =>
      if insn.id = .B_COND then Asm.b_cond insn.cond target_addr s
      else
        let s1 := gen_load_address 16 target_addr s
        if insn.id = .BL then .ok (blr 16 s1) else .ok (br 16 s1)

/-- The B.cond target decode from `AArch64Disassembler::decode_instruction`
(src/src/disassembler.cpp): `imm19 = (w >> 5) & 0x7FFFF`, sign-extend,
`target = address + imm19 * 4` in `uint64_t` arithmetic. -/
def decode_bcond_target (address w : Nat) : Nat :=
  let imm19 : Nat := (w >>> 5) &&& 0x7FFFF
  let simm : Int := if imm19 &&& 0x40000 ≠ 0 then (imm19 : Int) - 524288 else (imm19 : Int)
  ((((address : Int) + simm * 4) % 18446744073709551616)).toNat

/-! ## Memory primitives (src/src/memory.cpp)

The effect of a patch is captured as a trace of events (protections,
writes, icache flushes) plus the updated byte memory.  `memory::write`
always succeeds in the source (plain `memcpy`); `memory::protect` wraps
`mprotect`, whose outcome is a parameter (`protOk`). -/

/-- One call into the `ur::memory` primitives. -/
inductive MemEvent
  | protect (addr len prot : Nat)
  | write (addr : Nat) (bytes : List Nat)
  | flush (addr len : Nat)
  deriving Repr, DecidableEq

/-- The (address, length) of each write event, in order. -/
def writesOf (evs : List MemEvent) : List (Nat × Nat) :=
  evs.filterMap fun e =>
    match e with
    | .write a bs => some (a, bs.length)
    | _ => none

namespace Mem

/-- `ur::memory::atomic_patch`: returns the success flag, the updated
memory, and the event trace.  For `patch_size = 0` it returns `true`
immediately; otherwise it makes the page RWX, writes bytes `[4, n)` first
when `n > 4`, then writes the first 4 bytes, restores R+X (failure there
is ignored) and flushes the icache.  Note the head write always copies
4 bytes. -/
def atomic_patch (m : Nat → Nat) (addr : Nat) (patch : List Nat) (protOk : Bool) :
    Bool × (Nat → Nat) × List MemEvent :=
  if patch.length = 0 then (true, m, [])
  else if ¬ protOk then (false, m, [.protect addr patch.length 7])
  else
    let (m1, evs1) :=
      if patch.length > 4 then
        (writeBytes m (addr + 4) (patch.drop 4),
         [MemEvent.protect addr patch.length 7, .write (addr + 4) (patch.drop 4)])
      else (m, [MemEvent.protect addr patch.length 7])
    let m2 := writeBytes m1 addr (patch.take 4)
    (true, m2,
     evs1 ++ [MemEvent.write addr (patch.take 4), .protect addr patch.length 5,
              .flush addr patch.length])

end Mem

/-! ## The mid-function hook (src/src/mid_hook.cpp) -/

/-- Modelled from the spec: `JUMP_INSTRUCTION_SIZE`, declared in a header
revision absent from the sources; the spec fixes the absolute jump
(`MOVZ/MOVK×4 + BR`) written over the target at 20 bytes. -/
def JUMP_INSTRUCTION_SIZE : Nat := 20

/-- The JIT operations `MidHook::do_hook` emits into the detour stub,
at the level of the `jit`/`assembler` calls it makes. -/
inductive MInstr
  | msub_sp (imm : Nat)
  | mstp (r1 r2 off : Nat)
  | mstr_lr (off : Nat)
  | mmov_x0_sp
  | mabs_call (dest : Nat)
  | mldp (r1 r2 off : Nat)
  | mldr_lr (off : Nat)
  | madd_sp (imm : Nat)
  | mret
  | mabs_jump (dest : Nat)
  deriving Repr, DecidableEq

/-- The stub built by `MidHook::do_hook` for callback `cb`: reserve 256
bytes of stack, store X0..X29 as STP pairs and LR at offset 240, pass SP
as the context pointer, call the callback, reload everything, restore SP
— and then `RET` ("Instead of executing original instructions, just
return", per the source comment). -/
def midHookStubCode (cb : Nat) : List MInstr :=
  [.msub_sp 256]
  ++ (List.range 15).map (fun k => MInstr.mstp (2 * k) (2 * k + 1) (16 * k))
  ++ [.mstr_lr 240, .mmov_x0_sp, .mabs_call cb]
  ++ (List.range 15).map (fun k => MInstr.mldp (2 * k) (2 * k + 1) (16 * k))
  ++ [.mldr_lr 240, .madd_sp 256, .mret]

/-- The memory events of `MidHook::enable`: make the target RWX, write
the whole 20-byte absolute jump to the detour in a single
`memory::write`, restore R+X, flush. -/
def mid_enable_events (target detour : Nat) : List MemEvent :=
  [.protect target JUMP_INSTRUCTION_SIZE 7,
   .write target (wordsToBytes (Asm.gen_abs_jump detour 16 (Asm.asmInit 0)).code),
   .protect target JUMP_INSTRUCTION_SIZE 5,
   .flush target JUMP_INSTRUCTION_SIZE]

/-- The target-memory write events of `MidHook::do_hook` (stages 1-3):
write a `B .` self-loop word at the target, then bytes `[4, 20)` of the
jump, then the first 4 bytes of the jump last. -/
def mid_install_events (target detour : Nat) : List MemEvent :=
  let branch := wordsToBytes (Asm.gen_abs_jump detour 16 (Asm.asmInit 0)).code
  let loop := wordsToBytes (Asm.asmInit target |> fun s =>
    match Asm.b target s with | .ok s' => s' | .error _ => s).code
  [.protect target JUMP_INSTRUCTION_SIZE 7,
   .write target (loop.take 4), .flush target 4,
   .write (target + 4) (branch.drop 4), .flush (target + 4) (JUMP_INSTRUCTION_SIZE - 4),
   .write target (branch.take 4), .flush target 4,
   .protect target JUMP_INSTRUCTION_SIZE 5]

/-! ## The inline-hook registry and chain (src/src/inline_hook.cpp)

Addresses, callbacks and `Hook*` owner identities are `Nat` (0 plays the
role of the null pointer).  The results of the three `mmap`-backed
allocations and of `relocate_trampoline` — which depend on the OS and on
the decoder — are parameters of the install operation: `stubAlloc` is the
detour-stub address obtained after all allocator fallbacks (`none` when
every fallback failed), `relocRes` is `some (words, backup_size)` when
`relocate_trampoline` returns and `none` when it throws, and
`trampAlloc` is the trampoline mapping address. -/

/-- `HookEntry`: one link of a target's hook chain. -/
structure HookEntryM where
  owner : Nat
  callback : Nat
  call_next : Nat
  is_enabled : Bool
  deriving Repr, DecidableEq

/-- `HookInfo`: the per-target bookkeeping record. -/
structure HookInfoM where
  target_address : Nat
  entries : List HookEntryM
  original_code : List Nat
  trampoline : Option Nat
  backup_size : Nat
  detour_stub : Option Nat
  detour_stub_size : Nat
  patch_size_at_target : Nat
  target_patch_code : List Nat
  deriving Repr, DecidableEq

/-- The default-constructed `HookInfo`. -/
def emptyInfo : HookInfoM :=
  ⟨0, [], [], none, 0, none, 0, 0, []⟩

/-- The observable fields of a `Hook` handle. -/
structure HandleM where
  target : Nat
  callback : Nat
  is_enabled : Bool
  deriving Repr, DecidableEq

/-- Process state: target memory, the `g_hooks` registry, the live
`Hook` handles, and the base addresses of live executable mappings. -/
structure SysState where
  mem : Nat → Nat
  registry : List (Nat × HookInfoM)
  handles : List (Nat × HandleM)
  allocs : List Nat

/-- The initial process state: no hooks, no handles, no mappings. -/
def initState (m : Nat → Nat) : SysState := ⟨m, [], [], []⟩

/-- `g_hooks.find(target)`. -/
def lookupReg (r : List (Nat × HookInfoM)) (k : Nat) : Option HookInfoM :=
  (r.find? fun p => p.1 = k).map Prod.snd

/-- Store (insert or replace) the `HookInfo` for a target. -/
def insertReg (r : List (Nat × HookInfoM)) (k : Nat) (v : HookInfoM) :
    List (Nat × HookInfoM) :=
  (k, v) :: r.filter fun p => p.1 ≠ k

/-- `g_hooks.erase(target)`. -/
def eraseReg (r : List (Nat × HookInfoM)) (k : Nat) : List (Nat × HookInfoM) :=
  r.filter fun p => p.1 ≠ k

/-- Look up a live handle by owner identity. -/
def lookupHandle (hs : List (Nat × HandleM)) (o : Nat) : Option HandleM :=
  (hs.find? fun p => p.1 = o).map Prod.snd

/-- Store a handle. -/
def insertHandle (hs : List (Nat × HandleM)) (o : Nat) (h : HandleM) :
    List (Nat × HandleM) :=
  (o, h) :: hs.filter fun p => p.1 ≠ o

/-- `Hook::reset()` observed from outside: the handle stops being valid. -/
def eraseHandle (hs : List (Nat × HandleM)) (o : Nat) : List (Nat × HandleM) :=
  hs.filter fun p => p.1 ≠ o

/-- `Hook::do_unhook`'s chain surgery: erase the first entry owned by
`o`; when it has a predecessor, rewrite that predecessor's `call_next`
to the erased entry's successor callback, or to the trampoline when the
erased entry was the tail. -/
def eraseOwner (o tramp : Nat) : List HookEntryM → List HookEntryM
  | [] => []
  | e :: rest =>
    if e.owner = o then rest
    else
      match rest with
      | [] => [e]
      | e' :: rest' =>
        if e'.owner = o then
          { e with call_next := match rest' with
                                | [] => tramp
                                | nx :: _ => nx.callback } :: rest'
        else e :: eraseOwner o tramp rest

/-- `Hook::enable` / `Hook::disable` chain update: set the enabled flag
of the first entry owned by `o`. -/
def setEnabledFlag (o : Nat) (v : Bool) : List HookEntryM → List HookEntryM
  | [] => []
  | e :: rest =>
    if e.owner = o then { e with is_enabled := v } :: rest
    else e :: setEnabledFlag o v rest

/-- `update_detour_stub`: write an absolute jump to `detour` into the
detour stub pad (a `memcpy` followed by an icache flush). -/
def update_detour_stub (m : Nat → Nat) (stub detour : Nat) : Nat → Nat :=
  writeBytes m stub (wordsToBytes (Asm.gen_abs_jump detour 16 (Asm.asmInit stub)).code)

/-- `patch_target_with_code`: atomic-patch the cached words at `target`. -/
def patch_target_with_code (m : Nat → Nat) (target : Nat) (words : List Nat) : Nat → Nat :=
  (Mem.atomic_patch m target (wordsToBytes words) true).2.1

/-- `patch_target`: atomic-patch a fresh 20-byte absolute jump to
`destination` at `target`. -/
def patch_target (m : Nat → Nat) (target destination : Nat) : Nat → Nat :=
  (Mem.atomic_patch m target
    (wordsToBytes (Asm.gen_abs_jump destination 16 (Asm.asmInit target)).code) true).2.1

/-- `restore_target`: atomic-patch the saved original bytes back. -/
def restore_target (m : Nat → Nat) (info : HookInfoM) : Nat → Nat :=
  (Mem.atomic_patch m info.target_address (info.original_code.take info.backup_size) true).2.1

/-- `Hook::Hook(target, callback, enable_now)`.  Returns the state after
the constructor and whether it completed (`false` = it threw).  The
in-place mutations of the registry's `HookInfo` are committed on every
exit path, matching the C++ (the `catch (...)` block only rethrows). -/
def installOp (s : SysState) (target owner cb : Nat) (enableNow : Bool)
    (stubAlloc : Option Nat) (relocRes : Option (List Nat × Nat))
    (trampAlloc : Option Nat) : SysState × Bool :=
  if target = 0 then (s, false)
  else if cb = 0 ∧ enableNow then (s, false)
  else
    let info0 := (lookupReg s.registry target).getD emptyInfo
    let info1 := { info0 with target_address := target }
    -- allocate the detour stub once
    let stubStep : HookInfoM × List Nat :=
      if info1.detour_stub = none then
        match stubAlloc with
        | some a => ({ info1 with detour_stub := some a }, a :: s.allocs)
        | none => (info1, s.allocs)
      else (info1, s.allocs)
    let info2 := stubStep.1
    let allocs1 := stubStep.2
    -- choose and cache the minimal patch sequence
    let info3 :=
      if info2.target_patch_code = [] ∨ info2.patch_size_at_target = 0 then
        match info2.detour_stub with
        | some stub =>
          let pc := choose_patch_sequence target stub
          { info2 with target_patch_code := pc.1, patch_size_at_target := pc.2 }
        | none => { info2 with patch_size_at_target := Asm.ABS_JUMP_SIZE }
      else info2
    -- build the trampoline once
    let trampStep : Except HookInfoM (HookInfoM × List Nat × (Nat → Nat)) :=
      if info3.trampoline = none then
        match relocRes with
        | none => .error info3
        | some (words, k) =>
          let info4 := { info3 with backup_size := k }
          match trampAlloc with
          | none => .error info4
          | some tr =>
            let trailer := (Asm.gen_abs_jump (target + k) 16
              (Asm.asmInit (tr + 4 * words.length))).code
            let m1 := writeBytes s.mem tr (wordsToBytes (words ++ trailer))
            let info5 :=
              { info4 with
                trampoline := some tr
                original_code := readBytes m1 target k }
            .ok (info5, tr :: allocs1, m1)
      else .ok (info3, allocs1, s.mem)
    match trampStep with
    | .error infoF =>
      ({ mem := s.mem, registry := insertReg s.registry target infoF,
         handles := s.handles, allocs := allocs1 }, false)
    | .ok (info5, allocs2, m1) =>
      -- point the detour stub at the callback (enable_now) or trampoline
      let m2 :=
        match info5.detour_stub with
        | some stub =>
          update_detour_stub m1 stub
            (if enableNow then cb else (info5.trampoline.getD 0))
        | none => m1
      let info6 :=
        match info5.detour_stub with
        | some stub =>
          { info5 with detour_stub_size :=
              4 * (Asm.gen_abs_jump (if enableNow then cb else (info5.trampoline.getD 0))
                    16 (Asm.asmInit stub)).code.length }
        | none => info5
      let next_func := match info6.entries with
        | [] => info6.trampoline.getD 0
        | e :: _ => e.callback
      let info7 := { info6 with entries :=
        ⟨owner, cb, next_func, enableNow⟩ :: info6.entries }
      let m3 :=
        if enableNow then
          if info7.detour_stub.isSome ∧ info7.target_patch_code ≠ [] then
            patch_target_with_code m2 target info7.target_patch_code
          else
            patch_target m2 target cb
        else m2
      ({ mem := m3, registry := insertReg s.registry target info7,
         handles := insertHandle s.handles owner ⟨target, cb, enableNow⟩,
         allocs := allocs2 }, true)

/-- `Hook::do_unhook` (as run by `unhook` and the destructor). -/
def uninstallOp (s : SysState) (owner : Nat) : SysState :=
  match lookupHandle s.handles owner with
  | none => s
  | some h =>
    if h.target = 0 then s
    else
      match lookupReg s.registry h.target with
      | none => { s with handles := eraseHandle s.handles owner }
      | some info =>
        let entries' := eraseOwner owner (info.trampoline.getD 0) info.entries
        if entries' = [] then
          let m1 := restore_target s.mem info
          { mem := m1,
            registry := eraseReg s.registry h.target,
            handles := eraseHandle s.handles owner,
            allocs := (s.allocs.filter fun a => ¬ (info.trampoline = some a)).filter
              fun a => ¬ (info.detour_stub = some a) }
        else
          let info' := { info with entries := entries' }
          let headCb := (entries'.head?.map HookEntryM.callback).getD 0
          let m1 :=
            match info'.detour_stub with
            | some stub =>
              let m := update_detour_stub s.mem stub headCb
              if info'.target_patch_code ≠ [] then
                patch_target_with_code m h.target info'.target_patch_code
              else
                patch_target m h.target headCb
            | none => patch_target s.mem h.target headCb
          { mem := m1,
            registry := insertReg s.registry h.target info',
            handles := eraseHandle s.handles owner,
            allocs := s.allocs }

/-- Shared tail of `Hook::enable` / `Hook::disable`: re-point the detour
stub and re-patch the target to the first enabled entry, or restore the
original bytes when no entry is enabled. -/
def repatchFirstEnabled (m : Nat → Nat) (target : Nat) (info : HookInfoM) : Nat → Nat :=
  match info.entries.find? (fun e => e.is_enabled) with
  | some fe =>
    match info.detour_stub with
    | some stub =>
      let m1 := update_detour_stub m stub fe.callback
      if info.target_patch_code ≠ [] then
        patch_target_with_code m1 target info.target_patch_code
      else
        patch_target m1 target fe.callback
    | none => patch_target m target fe.callback
  | none => restore_target m info

/-- `Hook::enable`. -/
def enableOp (s : SysState) (owner : Nat) : SysState × Bool :=
  match lookupHandle s.handles owner with
  | none => (s, false)
  | some h =>
    if h.target = 0 ∨ h.is_enabled then (s, false)
    else if h.callback = 0 then (s, false)
    else
      match lookupReg s.registry h.target with
      | none => (s, false)
      | some info =>
        let info' := { info with entries := setEnabledFlag owner true info.entries }
        let m1 := repatchFirstEnabled s.mem h.target info'
        ({ mem := m1,
           registry := insertReg s.registry h.target info',
           handles := insertHandle s.handles owner { h with is_enabled := true },
           allocs := s.allocs }, true)

/-- `Hook::disable`. -/
def disableOp (s : SysState) (owner : Nat) : SysState × Bool :=
  match lookupHandle s.handles owner with
  | none => (s, false)
  | some h =>
    if h.target = 0 ∨ ¬ h.is_enabled then (s, false)
    else
      match lookupReg s.registry h.target with
      | none => (s, false)
      | some info =>
        let info' := { info with entries := setEnabledFlag owner false info.entries }
        let m1 := repatchFirstEnabled s.mem h.target info'
        ({ mem := m1,
           registry := insertReg s.registry h.target info',
           handles := insertHandle s.handles owner { h with is_enabled := false },
           allocs := s.allocs }, true)

/-- One public operation on a fixed target's hook chain. -/
inductive HookOp
  | install (owner cb : Nat) (enableNow : Bool) (stubAlloc : Option Nat)
            (relocRes : Option (List Nat × Nat)) (trampAlloc : Option Nat)
  | uninstall (owner : Nat)
  | enable (owner : Nat)
  | disable (owner : Nat)

/-- Run a sequence of operations against target `T`. -/
def runOps (T : Nat) (ops : List HookOp) (s : SysState) : SysState :=
  ops.foldl
    (fun st op =>
      match op with
      | .install owner cb en sa rr ta => (installOp st T owner cb en sa rr ta).1
      | .uninstall owner => uninstallOp st owner
      | .enable owner => (enableOp st owner).1
      | .disable owner => (disableOp st owner).1)
    s

/-- The structural chain invariant: every entry's `call_next` is the next
entry's callback, and the tail entry's `call_next` is the trampoline. -/
def chainLinkedB : List HookEntryM → Nat → Bool
  | [], _ => true
  | [e], t => e.call_next == t
  | e :: e' :: r, t => (e.call_next == e'.callback) && chainLinkedB (e' :: r) t

/-- The callback of the first enabled entry of the list, or `t`. -/
def nextEnabledCallback : List HookEntryM → Nat → Nat
  | [], t => t
  | e :: rest, t => if e.is_enabled then e.callback else nextEnabledCallback rest t

/-- The claimed per-enabled-entry chain property: each enabled entry's
`call_next` is the next enabled entry's callback, or the trampoline when
no later entry is enabled.  Stated from the spec for comparison. -/
def enabledChainB : List HookEntryM → Nat → Bool
  | [], _ => true
  | e :: rest, t =>
    (if e.is_enabled then e.call_next == nextEnabledCallback rest t else true)
      && enabledChainB rest t

/-! ## The near allocator (src/src/inline_hook.cpp) -/

/-- The `within_window` check of `allocate_executable_memory_near`. -/
def within_window (target maxDist a : Nat) : Bool :=
  decide ((if a > target then a - target else target - a) ≤ maxDist)

/-- The probe candidates tried by `allocate_executable_memory_near`:
the page-aligned base first, then symmetric −/+ 1 MiB steps, capped at
`min 256 (maxDist / 1MiB + 1)` probes; a downward candidate is skipped
when it would underflow. -/
def near_probe_candidates (target maxDist pageSize : Nat) : List Nat :=
  let base := target - target % pageSize
  let maxProbes := min 256 (maxDist / 1048576 + 1)
  (List.range maxProbes).flatMap fun i =>
    if i = 0 then [base]
    else
      (if base ≥ i * 1048576 then [base - i * 1048576] else []) ++
      [base + i * 1048576]

/-- The probe loop of `allocate_executable_memory_near`.  Each mmap call
is answered by the OS oracle `responses` (`none` = `MAP_FAILED`); a
successful mapping outside the window is unmapped (collected in the
second component) and probing continues; the first in-window mapping is
returned.  Exhausting the probes returns `none` (null). -/
def allocate_executable_memory_near (target maxDist : Nat) :
    List (Option Nat) → Option Nat × List Nat
  | [] => (none, [])
  | none :: rest => allocate_executable_memory_near target maxDist rest
  | some a :: rest =>
    if within_window target maxDist a then (some a, [])
    else
      let r := allocate_executable_memory_near target maxDist rest
      (r.1, a :: r.2)

/-- The per-`HookInfo` invariant: a non-empty chain owns a trampoline,
and the chain is linked (each `call_next` is the next entry's callback,
the tail's is the trampoline). -/
def InfoInv (info : HookInfoM) : Prop :=
  (info.entries ≠ [] → info.trampoline.isSome = true) ∧
  chainLinkedB info.entries (info.trampoline.getD 0) = true

/-- The registry-wide invariant. -/
def StateInv (s : SysState) : Prop :=
  ∀ k info, lookupReg s.registry k = some info → InfoInv info

/-- `choose_patch_sequence` never returns an empty word list. -/
theorem choose_patch_sequence_ne_nil (target dest : Nat) :
    (choose_patch_sequence target dest).1 ≠ [] := by
  unfold choose_patch_sequence
  split
  · next s hs =>
    simp only [Asm.b] at hs
    split at hs
    · cases hs
    · cases hs
      simp [Asm.emit, Asm.asmInit]
  · split
    · next s1 hs1 =>
      simp only [Asm.adrp] at hs1
      split at hs1
      · cases hs1
      · cases hs1
        simp [Asm.br, Asm.add_imm, Asm.emit, Asm.asmInit]
    · simp [Asm.gen_abs_jump, Asm.br, Asm.movk, Asm.movz, Asm.emit, Asm.asmInit]

/-! ## Basic lemmas -/

theorem wordsToBytes_length (ws : List Nat) : (wordsToBytes ws).length = 4 * ws.length := by
  induction ws with
  | nil => rfl
  | cons w ws ih => simp [wordsToBytes] at ih ⊢; omega

theorem writeBytes_getD_in (m : Nat → Nat) (a : Nat) (bs : List Nat) (i : Nat)
    (h : i < bs.length) : writeBytes m a bs (a + i) = bs.getD i 0 := by
  simp [writeBytes]
  intro h'
  omega

theorem writeBytes_out (m : Nat → Nat) (a : Nat) (bs : List Nat) (x : Nat)
    (h : x < a ∨ a + bs.length ≤ x) : writeBytes m a bs x = m x := by
  simp [writeBytes]
  intro h1 h2
  omega

theorem readBytes_getD (m : Nat → Nat) (a n i : Nat) (h : i < n) :
    (readBytes m a n).getD i 0 = m (a + i) := by
  simp [readBytes, List.getD, List.getElem?_map, List.getElem?_range, h]

theorem find?_filter_key {α : Type} (r : List (Nat × α)) (k k' : Nat) (h : k' ≠ k) :
    List.find? (fun p => decide (p.1 = k')) (r.filter fun p => decide (p.1 ≠ k)) =
    List.find? (fun p => decide (p.1 = k')) r := by
  induction r with
  | nil => rfl
  | cons p r ih =>
    by_cases hp : p.1 = k
    · rw [List.filter_cons_of_neg (by simp [hp])]
      rw [List.find?_cons]
      have hd : decide (p.1 = k') = false := by simp; omega
      rw [hd]
      exact ih
    · rw [List.filter_cons_of_pos (by simp [hp])]
      rw [List.find?_cons, List.find?_cons]
      cases hd : decide (p.1 = k') with
      | true => rfl
      | false => exact ih

theorem find?_filter_key_self {α : Type} (r : List (Nat × α)) (k : Nat) :
    List.find? (fun p => decide (p.1 = k)) (r.filter fun p => decide (p.1 ≠ k)) = none := by
  rw [List.find?_eq_none]
  intro x hx
  simp only [List.mem_filter] at hx
  simpa using hx.2

theorem lookupReg_insert_self (r : List (Nat × HookInfoM)) (k : Nat) (v : HookInfoM) :
    lookupReg (insertReg r k v) k = some v := by
  simp only [lookupReg, insertReg]
  rw [List.find?_cons]
  simp

theorem lookupReg_insert_ne (r : List (Nat × HookInfoM)) (k k' : Nat) (v : HookInfoM)
    (h : k' ≠ k) : lookupReg (insertReg r k v) k' = lookupReg r k' := by
  simp only [lookupReg, insertReg]
  rw [List.find?_cons]
  have hd : decide ((k, v).1 = k') = false := by simp; omega
  rw [hd, find?_filter_key r k k' h]

theorem lookupReg_erase_self (r : List (Nat × HookInfoM)) (k : Nat) :
    lookupReg (eraseReg r k) k = none := by
  simp only [lookupReg, eraseReg]
  rw [find?_filter_key_self r k]
  rfl

theorem lookupReg_erase_ne (r : List (Nat × HookInfoM)) (k k' : Nat) (h : k' ≠ k) :
    lookupReg (eraseReg r k) k' = lookupReg r k' := by
  simp only [lookupReg, eraseReg]
  rw [find?_filter_key r k k' h]

theorem lookupHandle_insert_self (hs : List (Nat × HandleM)) (o : Nat) (h : HandleM) :
    lookupHandle (insertHandle hs o h) o = some h := by
  simp only [lookupHandle, insertHandle]
  rw [List.find?_cons]
  simp

theorem lookupHandle_insert_ne (hs : List (Nat × HandleM)) (o o' : Nat) (h : HandleM)
    (hne : o' ≠ o) : lookupHandle (insertHandle hs o h) o' = lookupHandle hs o' := by
  simp only [lookupHandle, insertHandle]
  rw [List.find?_cons]
  have hd : decide ((o, h).1 = o') = false := by simp; omega
  rw [hd, find?_filter_key hs o o' hne]

/-! ## C10: `atomic_patch` with zero length -/

/-- C10: calling `memory::atomic_patch` with `patch_size = 0` returns
`true`, performs no write, no permission change and no icache flush, and
leaves the memory entirely unchanged. -/
theorem atomic_patch_zero_noop (m : Nat → Nat) (addr : Nat) (protOk : Bool) :
    Mem.atomic_patch m addr [] protOk = (true, m, []) := rfl

/-! ## C1: the mid-hook stub's final transfer -/

/-- C1 (evaluation at the failing input): the detour stub JIT-built by
`MidHook::do_hook` ends in `RET` and contains no absolute jump at all —
in particular none to an inline-hook trampoline — so after the callback
returns, the stub returns to the caller instead of running the displaced
original instructions. -/
theorem mid_hook_stub_ends_in_ret :
    (midHookStubCode 0x2000).getLast? = some MInstr.mret ∧
    (midHookStubCode 0x2000).countP
      (fun i => match i with | .mabs_jump _ => true | _ => false) = 0 := by
  exact ⟨rfl, rfl⟩

/-! ## C2: failed install and partial state -/

/-- C2 counterexample: installing on fresh target `0x1000` with the
decode step failing (`relocate_trampoline` throws) leaves a `HookInfo`
for the target in the process-wide registry — the claim that the
registry contains no `HookInfo` for `T` after the failure is false. -/
theorem install_failure_registry_cex :
    (installOp (initState fun _ => 0) 0x1000 1 0x2000 true
      (some 0x100000) none none).2 = false ∧
    (lookupReg (installOp (initState fun _ => 0) 0x1000 1 0x2000 true
      (some 0x100000) none none).1.registry 0x1000).isSome = true := by
  exact ⟨rfl, rfl⟩

/-- C2 amended: when install fails (relocation failure — including zero
decoded instructions — or trampoline allocation failure), no chain entry
is inserted and the constructor reports failure, but the registry
retains a `HookInfo` for the target and the detour-stub allocation
remains mapped. -/
theorem install_failure_partial_state (m : Nat → Nat) (T owner cb stub : Nat)
    (relocRes : Option (List Nat × Nat)) (trampAlloc : Option Nat)
    (hT : T ≠ 0) (hcb : cb ≠ 0)
    (hfail : relocRes = none ∨ trampAlloc = none) :
    (installOp (initState m) T owner cb true (some stub) relocRes trampAlloc).2 = false ∧
    ∃ info, lookupReg (installOp (initState m) T owner cb true (some stub)
        relocRes trampAlloc).1.registry T = some info ∧
      info.entries = [] ∧ info.detour_stub = some stub ∧
      stub ∈ (installOp (initState m) T owner cb true (some stub)
        relocRes trampAlloc).1.allocs := by
  rcases relocRes with _ | ⟨words, k⟩
  · have heq : installOp (initState m) T owner cb true (some stub) none trampAlloc =
        (⟨m, insertReg [] T ⟨T, [], [], none, 0, some stub, 0,
          (choose_patch_sequence T stub).2, (choose_patch_sequence T stub).1⟩,
          [], [stub]⟩, false) := by
      simp only [installOp, initState]
      rw [if_neg hT, if_neg (by simp [hcb])]
      rfl
    rw [heq]
    exact ⟨rfl, _, lookupReg_insert_self _ _ _, rfl, rfl, by simp⟩
  · rcases hfail with h | h
    · exact absurd h (by simp)
    · subst h
      have heq : installOp (initState m) T owner cb true (some stub)
          (some (words, k)) none =
        (⟨m, insertReg [] T ⟨T, [], [], none, k, some stub, 0,
          (choose_patch_sequence T stub).2, (choose_patch_sequence T stub).1⟩,
          [], [stub]⟩, false) := by
        simp only [installOp, initState]
        rw [if_neg hT, if_neg (by simp [hcb])]
        rfl
      rw [heq]
      exact ⟨rfl, _, lookupReg_insert_self _ _ _, rfl, rfl, by simp⟩

/-! ## C6: write ordering of patches -/

/-- C6 counterexample: `MidHook::enable` patches the target with a
single 20-byte write starting at the head, so its last (and only) write
is not the 4-byte head-word store the claim requires. -/
theorem mid_enable_head_write_cex :
    ¬ ((writesOf (mid_enable_events 0x1000 0x7000)).getLast? = some (0x1000, 4)) := by
  decide

theorem sub64_self (t : Nat) : sub64 t t = 0 := by
  have h : mask64 (t + (two64 - mask64 t)) = 0 := by
    unfold mask64 two64
    omega
  unfold sub64 s64
  rw [h]
  norm_num

/-- C6 amended: `memory::atomic_patch` (used for all inline-hook
patching) writes bytes `[4, n)` first and the 4-byte head word as the
final write.  `MidHook::do_hook` (three direct `memory::write` calls,
not `atomic_patch`) writes a 4-byte `B .` self-loop head first, then
bytes `[4, 20)`, then the real 4-byte head as the final write — its
last write is the aligned head store, but a head write precedes the
tail.  `MidHook::enable` instead performs one single write of the whole
20-byte patch starting at the head, so its first 4 bytes are not the
last write. -/
theorem patch_write_order (m : Nat → Nat) (addr : Nat) (patch : List Nat)
    (h : 4 < patch.length) :
    writesOf (Mem.atomic_patch m addr patch true).2.2 =
      [(addr + 4, patch.length - 4), (addr, 4)] ∧
    (∀ t d : Nat, writesOf (mid_install_events t d) = [(t, 4), (t + 4, 16), (t, 4)]) ∧
    ∀ t d : Nat, writesOf (mid_enable_events t d) = [(t, 20)] := by
  refine ⟨?_, ?_, ?_⟩
  · simp only [Mem.atomic_patch]
    rw [if_neg (by omega), if_neg (by simp), if_pos (by omega)]
    simp only [writesOf, List.filterMap]
    simp [List.length_drop, List.length_take]
    omega
  · intro t d
    have h5 : (Asm.gen_abs_jump d 16 (Asm.asmInit 0)).code.length = 5 := by
      simp [Asm.gen_abs_jump, Asm.br, Asm.movk, Asm.movz, Asm.emit, Asm.asmInit]
    simp [mid_install_events, writesOf, wordsToBytes_length, h5, Asm.b, sub64_self,
      Asm.emit, Asm.asmInit]
    simp only [Asm.asmInit] at h5
    omega
  · intro t d
    have h5 : (Asm.gen_abs_jump d 16 (Asm.asmInit 0)).code.length = 5 := by
      simp [Asm.gen_abs_jump, Asm.br, Asm.movk, Asm.movz, Asm.emit, Asm.asmInit]
    simp [mid_enable_events, writesOf, wordsToBytes_length, h5]

/-! ## C9: the near allocator's window discipline -/

/-- C9: `allocate_executable_memory_near` returns null or an in-window,
page-aligned mapping (page alignment being mmap's contract, stated as a
hypothesis on the OS oracle), and every probed mapping that lands
outside the window is unmapped rather than returned. -/
theorem allocate_near_window (target maxDist : Nat) (responses : List (Option Nat))
    (halign : ∀ a : Nat, some a ∈ responses → a % 4096 = 0) :
    (∀ a : Nat, (allocate_executable_memory_near target maxDist responses).1 = some a →
       within_window target maxDist a = true ∧ a % 4096 = 0) ∧
    (∀ b ∈ (allocate_executable_memory_near target maxDist responses).2,
       within_window target maxDist b = false) := by
  induction responses with
  | nil => exact ⟨fun a ha => by simp [allocate_executable_memory_near] at ha, by
      simp [allocate_executable_memory_near]⟩
  | cons o rest ih =>
    have halign' : ∀ a : Nat, some a ∈ rest → a % 4096 = 0 := by
      intro a ha; exact halign a (List.mem_cons_of_mem _ ha)
    rcases o with _ | a
    · simpa [allocate_executable_memory_near] using ih halign'
    · by_cases hw : within_window target maxDist a
      · refine ⟨fun a' ha' => ?_, fun b hb => ?_⟩
        · simp only [allocate_executable_memory_near, if_pos hw] at ha'
          cases ha'
          exact ⟨hw, halign a (by simp)⟩
        · simp [allocate_executable_memory_near, if_pos hw] at hb
      · have ih' := ih halign'
        refine ⟨fun a' ha' => ?_, fun b hb => ?_⟩
        · simp only [allocate_executable_memory_near, if_neg hw] at ha'
          exact ih'.1 a' ha'
        · simp only [allocate_executable_memory_near, if_neg hw, List.mem_cons] at hb
          rcases hb with rfl | hb
          · simpa using hw
          · exact ih'.2 b hb

/-- Witness for C9 at a concrete oracle: the first probe lands far
outside the 128 MiB window and is discarded, the second is in-window and
page-aligned and is returned. -/
theorem allocate_near_window_witness :
    within_window 0x100000 0x8000000 0x101000 = true ∧ 0x101000 % 4096 = 0 := by
  have h := allocate_near_window 0x100000 0x8000000
    [some 0x7FF0000000, some 0x101000]
    (by intro a ha
        simp only [List.mem_cons, List.mem_singleton] at ha
        rcases ha with h1 | h1 | h1
        · cases h1; decide
        · cases h1; decide
        · cases h1)
  exact h.1 0x101000 (by decide)

/-- Witness for C2 amended at a concrete failing install. -/
theorem install_failure_partial_state_witness :
    (installOp (initState fun _ => 0) 0x1000 1 0x2000 true
      (some 0x100000) none none).2 = false ∧
    ∃ info, lookupReg (installOp (initState fun _ => 0) 0x1000 1 0x2000 true
        (some 0x100000) none none).1.registry 0x1000 = some info ∧
      info.entries = [] ∧ info.detour_stub = some 0x100000 ∧
      0x100000 ∈ (installOp (initState fun _ => 0) 0x1000 1 0x2000 true
        (some 0x100000) none none).1.allocs :=
  install_failure_partial_state (fun _ => 0) 0x1000 1 0x2000 0x100000 none none
    (by decide) (by decide) (Or.inl rfl)

/-- Witness for C6 amended at a concrete 8-byte patch. -/
theorem patch_write_order_witness :
    writesOf (Mem.atomic_patch (fun _ => 0) 0x1000
      [1, 2, 3, 4, 5, 6, 7, 8] true).2.2 = [(0x1004, 4), (0x1000, 4)] ∧
    (∀ t d : Nat, writesOf (mid_install_events t d) = [(t, 4), (t + 4, 16), (t, 4)]) ∧
    ∀ t d : Nat, writesOf (mid_enable_events t d) = [(t, 20)] :=
  patch_write_order (fun _ => 0) 0x1000 [1, 2, 3, 4, 5, 6, 7, 8] (by decide)

/-! ## C7: the patch planner's priority ranges -/

/-- C7 counterexample: for `target = 0`, `dest = 2^31` the destination
is within the 33-bit ADRP range (the spec-side priority, 12 bytes), but
`choose_patch_sequence` rejects the page offset `2^31` against the
signed 32-bit bound and emits the 20-byte absolute jump. -/
theorem patch_planner_adrp_range_cex :
    spec_patch_length 0 2147483648 = 12 ∧
    (choose_patch_sequence 0 2147483648).2 = 20 := by
  exact ⟨by decide, rfl⟩

/-- C7 amended: the planner picks the 4-byte B exactly when the B-offset
fits `[-2^27, 2^27 - 4]`, else the 12-byte ADRP+ADD+BR exactly when the
page offset fits the signed 32-bit range `[-2^31, 2^31 - 1]` (not the
33-bit ADRP range), else the 20-byte MOVZ/MOVK×4 + BR jump. -/
theorem choose_patch_sequence_priority (target dest : Nat) :
    (choose_patch_sequence target dest).2 =
      if -134217728 ≤ sub64 dest target ∧ sub64 dest target ≤ 134217724 then 4
      else if -2147483648 ≤ sub64 (pageOf dest) (pageOf target) ∧
              sub64 (pageOf dest) (pageOf target) ≤ 2147483647 then 12
      else 20 := by
  by_cases h1 : -134217728 ≤ sub64 dest target ∧ sub64 dest target ≤ 134217724
  · rw [if_pos h1]
    simp only [choose_patch_sequence, Asm.b, Asm.asmInit]
    rw [if_neg (by omega)]
    rfl
  · rw [if_neg h1]
    by_cases h2 : -2147483648 ≤ sub64 (pageOf dest) (pageOf target) ∧
        sub64 (pageOf dest) (pageOf target) ≤ 2147483647
    · rw [if_pos h2]
      simp only [choose_patch_sequence, Asm.b, Asm.adrp, Asm.asmInit]
      rw [if_pos (by omega), if_neg (by omega)]
      rfl
    · rw [if_neg h2]
      simp only [choose_patch_sequence, Asm.b, Asm.adrp, Asm.asmInit]
      rw [if_pos (by omega), if_pos (by omega)]
      rfl

/-! ## C8: CBZ/CBNZ encoder range -/

/-- C8 counterexample: a backward offset of −4 is well within ±1 MiB,
yet both `cbz` and `cbnz` reject it — the encoders accept no negative
offset at all. -/
theorem cbz_negative_offset_cex :
    (-1048576 ≤ sub64 0xFFC 0x1000 ∧ sub64 0xFFC 0x1000 ≤ 1048572) ∧
    Asm.cbz 0 0xFFC (Asm.asmInit 0x1000) = .error "CBZ offset out of range" ∧
    Asm.cbnz 0 0xFFC (Asm.asmInit 0x1000) = .error "CBNZ offset out of range" := by
  exact ⟨by decide, rfl, rfl⟩

/-- C8 amended: `cbz`/`cbnz` succeed — appending exactly one instruction
word — precisely when the offset from the buffer's current address lies
in `[0, 524284]`; any other offset (negative ones included, although
architecturally encodable) fails with the out-of-range error and leaves
the buffer unchanged. -/
theorem cbz_cbnz_range_behavior (rt target : Nat) (s : Asm.AsmState) :
    ((0 ≤ sub64 target s.addr ∧ sub64 target s.addr ≤ 524284) →
      (∃ w, Asm.cbz rt target s = .ok (Asm.emit w s)) ∧
      (∃ w, Asm.cbnz rt target s = .ok (Asm.emit w s))) ∧
    ((sub64 target s.addr < 0 ∨ 524284 < sub64 target s.addr) →
      Asm.cbz rt target s = .error "CBZ offset out of range" ∧
      Asm.cbnz rt target s = .error "CBNZ offset out of range") ∧
    (∀ w, (Asm.emit w s).code.length = s.code.length + 1) := by
  refine ⟨fun h => ⟨?_, ?_⟩, fun h => ⟨?_, ?_⟩, fun w => by simp [Asm.emit]⟩
  · refine ⟨0xB4000000 ||| (((u32 (sub64 target s.addr) >>> 2) &&& 0x7FFFF) <<< 5) |||
      Asm.to_reg rt, ?_⟩
    simp only [Asm.cbz]; rw [if_neg (by omega)]
  · refine ⟨0xB5000000 ||| (((u32 (sub64 target s.addr) >>> 2) &&& 0x7FFFF) <<< 5) |||
      Asm.to_reg rt, ?_⟩
    simp only [Asm.cbnz]; rw [if_neg (by omega)]
  · simp only [Asm.cbz]; rw [if_pos (by omega)]
  · simp only [Asm.cbnz]; rw [if_pos (by omega)]

/-- Witness for C8 amended at a concrete in-range offset (+8). -/
theorem cbz_cbnz_range_behavior_witness :
    (∃ w, Asm.cbz 0 0x1008 (Asm.asmInit 0x1000) = .ok (Asm.emit w (Asm.asmInit 0x1000))) ∧
    (∃ w, Asm.cbnz 0 0x1008 (Asm.asmInit 0x1000) = .ok (Asm.emit w (Asm.asmInit 0x1000))) :=
  (cbz_cbnz_range_behavior 0 0x1008 (Asm.asmInit 0x1000)).1 (by decide)

/-! ## Bit-arithmetic helpers for the B.cond roundtrip (C5) -/

theorem or_shiftRight (x y n : Nat) : (x ||| y) >>> n = (x >>> n) ||| (y >>> n) := by
  apply Nat.eq_of_testBit_eq
  intro i
  simp [Nat.testBit_shiftRight, Nat.testBit_or]

theorem shiftLeft_shiftRight_same (x n : Nat) : (x <<< n) >>> n = x := by
  rw [Nat.shiftLeft_eq, Nat.shiftRight_eq_div_pow]
  exact Nat.mul_div_cancel x (Nat.pos_pow_of_pos n (by norm_num))

theorem and_two_pow_of_lt (a n : Nat) (h : a < 2 ^ n) : a &&& 2 ^ n = 0 := by
  apply Nat.eq_of_testBit_eq
  intro i
  simp only [Nat.testBit_and, Nat.zero_testBit, Nat.testBit_two_pow]
  by_cases hi : n = i
  · subst hi
    simp [Nat.testBit_lt_two_pow h]
  · simp [hi]

theorem and_two_pow_of_ge (a n : Nat) (h1 : 2 ^ n ≤ a) (h2 : a < 2 ^ (n + 1)) :
    a &&& 2 ^ n = 2 ^ n := by
  apply Nat.eq_of_testBit_eq
  intro i
  simp only [Nat.testBit_and, Nat.testBit_two_pow]
  by_cases hi : n = i
  · subst hi
    have : a.testBit n = decide (a / 2 ^ n % 2 = 1) := Nat.testBit_to_div_mod
    have hdiv : a / 2 ^ n = 1 := by
      have hp : 0 < 2 ^ n := Nat.pos_pow_of_pos n (by norm_num)
      have h2' : a < 2 ^ n * 2 := by rw [pow_succ] at h2; omega
      have hup : a / 2 ^ n < 2 := Nat.div_lt_of_lt_mul (by omega)
      have hlow : 1 ≤ a / 2 ^ n := (Nat.le_div_iff_mul_le hp).mpr (by omega)
      omega
    simp [this, hdiv]
  · simp [hi]

theorem pack19_extract (i c : Nat) (hi : i < 524288) (hc : c < 16) :
    ((0x54000000 ||| (i <<< 5) ||| c) >>> 5) &&& 0x7FFFF = i := by
  rw [or_shiftRight, or_shiftRight, shiftLeft_shiftRight_same]
  have hc5 : c >>> 5 = 0 := by
    rw [Nat.shiftRight_eq_div_pow]
    omega
  have h54 : (0x54000000 : Nat) >>> 5 = 0x2A00000 := by decide
  rw [hc5, h54, Nat.or_zero, Nat.and_distrib_right]
  have m1 : (0x2A00000 : Nat) &&& 0x7FFFF = 0 := by decide
  rw [m1, Nat.zero_or]
  have h19 : (0x7FFFF : Nat) = 2 ^ 19 - 1 := by norm_num
  rw [h19, Nat.and_pow_two_sub_one_eq_mod]
  exact Nat.mod_eq_of_lt (by omega)

theorem pack4_extract (i c : Nat) (hc : c < 16) :
    (0x54000000 ||| (i <<< 5) ||| c) &&& 0xF = c := by
  rw [Nat.and_distrib_right, Nat.and_distrib_right]
  have h1 : (0x54000000 : Nat) &&& 0xF = 0 := by decide
  have h4 : (0xF : Nat) = 2 ^ 4 - 1 := by norm_num
  have h2 : (i <<< 5) &&& 0xF = 0 := by
    rw [h4, Nat.and_pow_two_sub_one_eq_mod, Nat.shiftLeft_eq]
    omega
  have h3 : c &&& 0xF = c := by
    rw [h4, Nat.and_pow_two_sub_one_eq_mod]
    omega
  rw [h1, h2, h3, Nat.zero_or, Nat.zero_or]

theorem pack_lt_two32 (i c : Nat) (hi : i < 524288) (hc : c < 16) :
    0x54000000 ||| (i <<< 5) ||| c < 4294967296 := by
  have h1 : (0x54000000 : Nat) < 4294967296 := by norm_num
  have h2 : i <<< 5 < 4294967296 := by
    rw [Nat.shiftLeft_eq]
    omega
  have h3 : c < 4294967296 := by omega
  have e : (4294967296 : Nat) = 2 ^ 32 := by norm_num
  rw [e] at h1 h2 h3 ⊢
  exact Nat.or_lt_two_pow (Nat.or_lt_two_pow h1 h2) h3

theorem sub64_char (a b : Nat) :
    ∃ q : Int, sub64 a b =
        (a : Int) - (b % 18446744073709551616 : Nat) - 18446744073709551616 * q ∧
      -9223372036854775808 ≤ sub64 a b ∧ sub64 a b < 9223372036854775808 := by
  simp only [sub64, s64, mask64, two64]
  split
  · refine ⟨((a + (18446744073709551616 - b % 18446744073709551616)) /
      18446744073709551616 : Nat) - 1, ?_, ?_, ?_⟩ <;> omega
  · refine ⟨((a + (18446744073709551616 - b % 18446744073709551616)) /
      18446744073709551616 : Nat), ?_, ?_, ?_⟩ <;> omega

/-- Re-encoding a B.cond at a new site to the same absolute target and
decoding the emitted word recovers the target and the condition, when
the branch offset from the new site is encodable. -/
theorem b_cond_roundtrip (cond tgt : Nat) (s : Asm.AsmState) (hc : cond < 16)
    (htgt : tgt < 18446744073709551616) (haddr : s.addr < 18446744073709551616)
    (halign : tgt % 4 = s.addr % 4)
    (hlo : -524288 ≤ sub64 tgt s.addr) (hhi : sub64 tgt s.addr ≤ 524284) :
    ∃ w, Asm.b_cond cond tgt s = .ok (Asm.emit w s) ∧ w < 4294967296 ∧
      decode_bcond_target s.addr w = tgt ∧ w &&& 0xF = cond := by
  obtain ⟨q, hq, hb1, hb2⟩ := sub64_char tgt s.addr
  set off := sub64 tgt s.addr with hoffdef
  set e19 := (u32 off >>> 2) &&& 0x7FFFF with hE
  have he19 : e19 = (u32 off / 4) % 524288 := by
    rw [hE, Nat.shiftRight_eq_div_pow,
      (show (0x7FFFF : Nat) = 2 ^ 19 - 1 by norm_num), Nat.and_pow_two_sub_one_eq_mod]
  have hlt19 : e19 < 524288 := by omega
  have hdvd : off % 4 = 0 := by omega
  refine ⟨0x54000000 ||| (e19 <<< 5) ||| cond, ?_, pack_lt_two32 e19 cond hlt19 hc, ?_,
    pack4_extract e19 cond hc⟩
  · simp only [Asm.b_cond]
    rw [if_neg (by omega)]
  · simp only [decode_bcond_target]
    rw [pack19_extract e19 cond hlt19 hc]
    by_cases hsign : 0 ≤ off
    · have hval : u32 off = off.toNat := by
        simp only [u32]
        omega
      have he4 : (e19 : Int) * 4 = off := by
        rw [he19, hval]
        omega
      have hsmall : e19 < 262144 := by
        rw [he19, hval]
        omega
      have hbit : e19 &&& 0x40000 = 0 := by
        rw [(show (0x40000 : Nat) = 2 ^ 18 by norm_num)]
        exact and_two_pow_of_lt _ _ (by omega)
      rw [hbit]
      norm_num
      omega
    · have hval : u32 off = (off + 4294967296).toNat := by
        simp only [u32]
        omega
      have he4 : ((e19 : Int) - 524288) * 4 = off := by
        rw [he19, hval]
        omega
      have hge : 262144 ≤ e19 := by
        rw [he19, hval]
        omega
      have hbit : e19 &&& 0x40000 = 0x40000 := by
        rw [(show (0x40000 : Nat) = 2 ^ 18 by norm_num)]
        exact and_two_pow_of_ge _ _ (by omega) (by omega)
      rw [hbit]
      norm_num
      omega

/-! ## C5: relocation of conditional branches -/

/-- C5 counterexample: relocating a decoded CBZ (whose first operand is
the tested register, not an immediate) makes `relocate_trampoline`'s
branch case throw `std::bad_variant_access` — no code is emitted, so
neither the verbatim short encoding nor an inverted-branch island is
produced and the install fails. -/
theorem relocate_cbz_fails_cex :
    relocate_jump_insn
      ⟨0x4000, 0xB4000040, .CBZ, .JUMP, 0, [.reg 0, .imm 0x4008], true⟩
      (Asm.asmInit 0x500000) = .error "bad variant access" := rfl

/-- C5 amended: in the relocated prefix, a B.cond is re-encoded as a
conditional branch with the same condition to the original absolute
target — preserving semantics and flags — provided that target is within
conditional-branch range of the new site (the encoder throws otherwise);
a CBZ, CBNZ, TBZ or TBNZ (register first operand) makes relocation fail
with an operand-access error, emitting nothing. -/
theorem relocate_branch_behavior (insn : DInsn) (s : Asm.AsmState) :
    (∀ tgt, insn.operands = [DOperand.imm tgt] → insn.id = .B_COND →
      insn.cond < 16 → tgt < 18446744073709551616 →
      s.addr < 18446744073709551616 → tgt % 4 = s.addr % 4 →
      -524288 ≤ sub64 tgt s.addr → sub64 tgt s.addr ≤ 524284 →
      ∃ w, relocate_jump_insn insn s = .ok (Asm.emit w s) ∧ w < 4294967296 ∧
        decode_bcond_target s.addr w = tgt ∧ w &&& 0xF = insn.cond) ∧
    (∀ r rest, insn.operands = DOperand.reg r :: rest →
      relocate_jump_insn insn s = .error "bad variant access") := by
  constructor
  · intro tgt hops hid hc htgt haddr halign hlo hhi
    obtain ⟨w, hw, hwlt, hdec, hcond⟩ :=
      b_cond_roundtrip insn.cond tgt s hc htgt haddr halign hlo hhi
    refine ⟨w, ?_, hwlt, hdec, hcond⟩
    simp only [relocate_jump_insn, hops, getImm, hid, if_pos]
    exact hw
  · intro r rest hops
    simp [relocate_jump_insn, hops, getImm]

/-- Witness for C5 amended: a concrete in-range B.cond relocation and a
concrete CBZ relocation failure. -/
theorem relocate_branch_behavior_witness :
    (∃ w, relocate_jump_insn
        ⟨0x4000, 0x54000041, .B_COND, .JUMP, 1, [.imm 0x4FF000], true⟩
        (Asm.asmInit 0x500000) = .ok (Asm.emit w (Asm.asmInit 0x500000)) ∧
      w < 4294967296 ∧ decode_bcond_target 0x500000 w = 0x4FF000 ∧ w &&& 0xF = 1) ∧
    relocate_jump_insn
      ⟨0x4000, 0x35000040, .CBNZ, .JUMP, 0, [.reg 0, .imm 0x4008], true⟩
      (Asm.asmInit 0x500000) = .error "bad variant access" := by
  constructor
  · exact (relocate_branch_behavior
      ⟨0x4000, 0x54000041, .B_COND, .JUMP, 1, [.imm 0x4FF000], true⟩
      (Asm.asmInit 0x500000)).1 0x4FF000 rfl rfl (by decide) (by decide) (by decide)
      (by decide) (by decide) (by decide)
  · exact (relocate_branch_behavior
      ⟨0x4000, 0x35000040, .CBNZ, .JUMP, 0, [.reg 0, .imm 0x4008], true⟩
      (Asm.asmInit 0x500000)).2 0 [.imm 0x4008] rfl

/-! ## C4: chain linkage -/

theorem lookupReg_nil (k : Nat) : lookupReg [] k = none := rfl

theorem eraseOwner_head (o t : Nat) (e : HookEntryM) (r : List HookEntryM)
    (h : e.owner ≠ o) :
    ∃ e2 r2, eraseOwner o t (e :: r) = e2 :: r2 ∧ e2.callback = e.callback := by
  cases r with
  | nil => exact ⟨e, [], by simp [eraseOwner, h], rfl⟩
  | cons e' r' =>
    by_cases h' : e'.owner = o
    · refine ⟨{ e with call_next := match r' with
        | [] => t
        | nx :: _ => nx.callback }, r', ?_, rfl⟩
      simp [eraseOwner, h, h']
    · refine ⟨e, eraseOwner o t (e' :: r'), ?_, rfl⟩
      simp [eraseOwner, h, h']

theorem chainLinkedB_eraseOwner (o t : Nat) (es : List HookEntryM)
    (h : chainLinkedB es t = true) : chainLinkedB (eraseOwner o t es) t = true := by
  induction es with
  | nil => simpa using h
  | cons e rest ih =>
    cases rest with
    | nil =>
      by_cases ho : e.owner = o
      · simp [eraseOwner, ho, chainLinkedB]
      · simpa [eraseOwner, ho, chainLinkedB] using h
    | cons e' r' =>
      simp only [chainLinkedB, Bool.and_eq_true, beq_iff_eq] at h
      by_cases ho : e.owner = o
      · simp only [eraseOwner, if_pos ho]
        exact h.2
      · by_cases ho' : e'.owner = o
        · cases r' with
          | nil =>
            have hstep : eraseOwner o t [e, e'] = [{ e with call_next := t }] := by
              simp [eraseOwner, ho, ho']
            rw [hstep]
            simp [chainLinkedB]
          | cons nx r'' =>
            have hstep : eraseOwner o t (e :: e' :: nx :: r'') =
                { e with call_next := nx.callback } :: nx :: r'' := by
              simp [eraseOwner, ho, ho']
            have h22 : chainLinkedB (nx :: r'') t = true := by
              have h2 := h.2
              simp only [chainLinkedB, Bool.and_eq_true] at h2
              exact h2.2
            rw [hstep]
            simp only [chainLinkedB, Bool.and_eq_true, beq_iff_eq]
            exact ⟨by trivial, h22⟩
        · have hstep : eraseOwner o t (e :: e' :: r') = e :: eraseOwner o t (e' :: r') := by
            simp [eraseOwner, ho, ho']
          obtain ⟨e2, r2, heq, hcb⟩ := eraseOwner_head o t e' r' ho'
          have ih' := ih h.2
          rw [hstep, heq]
          rw [heq] at ih'
          simp only [chainLinkedB, Bool.and_eq_true, beq_iff_eq]
          exact ⟨by rw [hcb]; exact h.1, ih'⟩

theorem setEnabledFlag_head (o : Nat) (v : Bool) (e : HookEntryM) (r : List HookEntryM) :
    ∃ e2 r2, setEnabledFlag o v (e :: r) = e2 :: r2 ∧
      e2.callback = e.callback ∧ e2.call_next = e.call_next := by
  by_cases ho : e.owner = o
  · exact ⟨{ e with is_enabled := v }, r, by simp [setEnabledFlag, ho], rfl, rfl⟩
  · exact ⟨e, setEnabledFlag o v r, by simp [setEnabledFlag, ho], rfl, rfl⟩

theorem chainLinkedB_setEnabledFlag (o : Nat) (v : Bool) (es : List HookEntryM) (t : Nat) :
    chainLinkedB (setEnabledFlag o v es) t = chainLinkedB es t := by
  induction es with
  | nil => rfl
  | cons e rest ih =>
    cases rest with
    | nil =>
      by_cases ho : e.owner = o <;> simp [setEnabledFlag, ho, chainLinkedB]
    | cons e' r' =>
      by_cases ho : e.owner = o
      · simp only [setEnabledFlag, if_pos ho]
        simp [chainLinkedB]
      · have hstep : setEnabledFlag o v (e :: e' :: r') =
            e :: setEnabledFlag o v (e' :: r') := by
          simp [setEnabledFlag, ho]
        obtain ⟨e2, r2, heq, hcb, hcn⟩ := setEnabledFlag_head o v e' r'
        rw [hstep, heq]
        simp only [chainLinkedB]
        rw [hcb, ← heq, ih]

theorem setEnabledFlag_ne_nil (o : Nat) (v : Bool) (es : List HookEntryM)
    (h : es ≠ []) : setEnabledFlag o v es ≠ [] := by
  cases es with
  | nil => exact absurd rfl h
  | cons e rest =>
    by_cases ho : e.owner = o <;> simp [setEnabledFlag, ho]

theorem StateInv_insert (r : List (Nat × HookInfoM)) (T : Nat) (v : HookInfoM)
    (hr : ∀ k info, lookupReg r k = some info → InfoInv info) (hv : InfoInv v) :
    ∀ k info, lookupReg (insertReg r T v) k = some info → InfoInv info := by
  intro k info hk
  by_cases h : k = T
  · subst h
    rw [lookupReg_insert_self] at hk
    cases hk
    exact hv
  · rw [lookupReg_insert_ne _ _ _ _ h] at hk
    exact hr _ _ hk

theorem StateInv_erase (r : List (Nat × HookInfoM)) (T : Nat)
    (hr : ∀ k info, lookupReg r k = some info → InfoInv info) :
    ∀ k info, lookupReg (eraseReg r T) k = some info → InfoInv info := by
  intro k info hk
  by_cases h : k = T
  · subst h
    rw [lookupReg_erase_self] at hk
    cases hk
  · rw [lookupReg_erase_ne _ _ _ h] at hk
    exact hr _ _ hk

theorem setEnabledFlag_info_inv (info : HookInfoM) (o : Nat) (v : Bool)
    (h : InfoInv info) :
    InfoInv { info with entries := setEnabledFlag o v info.entries } := by
  refine ⟨fun hne => ?_, ?_⟩
  · apply h.1
    intro hnil
    rw [hnil] at hne
    exact hne rfl
  · simpa [chainLinkedB_setEnabledFlag] using h.2

theorem enableOp_inv (s : SysState) (o : Nat) (hs : StateInv s) :
    StateInv (enableOp s o).1 := by
  intro k info hk
  unfold enableOp at hk
  split at hk
  · exact hs _ _ hk
  · split at hk
    · exact hs _ _ hk
    · split at hk
      · exact hs _ _ hk
      · split at hk
        · exact hs _ _ hk
        · rename_i infoT hreg
          exact StateInv_insert s.registry _ _ hs
            (setEnabledFlag_info_inv infoT o true (hs _ _ hreg)) k info hk

theorem disableOp_inv (s : SysState) (o : Nat) (hs : StateInv s) :
    StateInv (disableOp s o).1 := by
  intro k info hk
  unfold disableOp at hk
  split at hk
  · exact hs _ _ hk
  · split at hk
    · exact hs _ _ hk
    · split at hk
      · exact hs _ _ hk
      · rename_i infoT hreg
        exact StateInv_insert s.registry _ _ hs
          (setEnabledFlag_info_inv infoT o false (hs _ _ hreg)) k info hk

theorem uninstallOp_inv (s : SysState) (o : Nat) (hs : StateInv s) :
    StateInv (uninstallOp s o) := by
  intro k info hk
  unfold uninstallOp at hk
  split at hk
  · exact hs _ _ hk
  · split at hk
    · exact hs _ _ hk
    · split at hk
      · exact hs _ _ hk
      · dsimp only [] at hk
        split at hk
        · exact StateInv_erase s.registry _ hs k info hk
        · rename_i infoT hreg hne
          refine StateInv_insert s.registry _ _ hs ⟨fun _ => ?_, ?_⟩ k info hk
          · apply (hs _ _ hreg).1
            intro hnil
            apply hne
            simp [hnil, eraseOwner]
          · exact chainLinkedB_eraseOwner _ _ _ (hs _ _ hreg).2

theorem InfoInv_of_same (I0 v : HookInfoM)
    (hent : v.entries = I0.entries) (htr : v.trampoline = I0.trampoline)
    (h : InfoInv I0) : InfoInv v := by
  refine ⟨fun hne => ?_, ?_⟩
  · rw [htr]
    exact h.1 (by rwa [hent] at hne)
  · rw [hent, htr]
    exact h.2

theorem InfoInv_push (I0 v : HookInfoM) (owner cb : Nat) (en : Bool) (tr' : Option Nat)
    (htr : v.trampoline = tr') (hsome : tr'.isSome = true)
    (hcompat : I0.entries ≠ [] → tr' = I0.trampoline)
    (hent : v.entries = ⟨owner, cb,
      (match I0.entries with
       | [] => tr'.getD 0
       | e :: _ => e.callback), en⟩ :: I0.entries)
    (h : InfoInv I0) : InfoInv v := by
  refine ⟨fun _ => by rw [htr]; exact hsome, ?_⟩
  rw [hent, htr]
  cases hE : I0.entries with
  | nil => simp [chainLinkedB]
  | cons e es =>
    have hc := h.2
    rw [hE] at hc
    have htr' : tr' = I0.trampoline := hcompat (by rw [hE]; simp)
    rw [htr']
    simp only [chainLinkedB, Bool.and_eq_true, beq_iff_eq]
    exact ⟨by trivial, hc⟩

theorem InfoInv_of_entries_nil (v : HookInfoM) (h : v.entries = []) : InfoInv v :=
  ⟨fun hne => absurd h hne, by rw [h]; rfl⟩

set_option maxHeartbeats 4000000 in
theorem installOp_inv (s : SysState) (T owner cb : Nat) (en : Bool)
    (sa : Option Nat) (rr : Option (List Nat × Nat)) (ta : Option Nat)
    (hs : StateInv s) : StateInv (installOp s T owner cb en sa rr ta).1 := by
  intro k info hk
  unfold installOp at hk
  by_cases h1 : T = 0
  · rw [if_pos h1] at hk
    exact hs _ _ hk
  rw [if_neg h1] at hk
  by_cases h2 : cb = 0 ∧ en = true
  · rw [if_pos h2] at hk
    exact hs _ _ hk
  rw [if_neg h2] at hk
  rcases hreg : lookupReg s.registry T with _ | info0
  · simp only [hreg, Option.getD_none] at hk
    rcases sa with _ | sba <;> rcases rr with _ | ⟨rwords, rk⟩ <;> rcases ta with _ | tra <;>
      simp [emptyInfo] at hk <;>
      first
      | exact hs _ _ hk
      | (refine StateInv_insert s.registry _ _ hs (InfoInv_of_entries_nil _ ?_) k info hk
         simp
         done)
      | (refine StateInv_insert s.registry _ _ hs ⟨fun _ => ?_, ?_⟩ k info hk
         · simp
         · simp [chainLinkedB]
         done)
  · have hI0 := hs T info0 hreg
    rcases hstub : info0.detour_stub with _ | st <;>
    rcases hE : info0.entries with _ | ⟨e0, erest⟩ <;>
    by_cases hpatch : info0.target_patch_code = [] ∨ info0.patch_size_at_target = 0 <;>
    rcases htr : info0.trampoline with _ | tv <;>
    rcases sa with _ | sba <;> rcases rr with _ | ⟨rwords, rk⟩ <;> rcases ta with _ | tra <;>
      simp [hreg, hstub, hE, hpatch, htr] at hk <;>
      first
      | exact hs _ _ hk
      | (refine StateInv_insert s.registry _ _ hs
           (InfoInv_of_same info0 _ ?_ ?_ hI0) k info hk
         · simp [hE]
         · simp [htr]
         done)
      | (refine StateInv_insert s.registry _ _ hs
           (InfoInv_push info0 _ owner cb en (some tra) ?_ rfl ?_ ?_ hI0) k info hk
         · simp
         · intro hne
           first
           | exact absurd hE hne
           | (have h5 := hI0.1 hne
              rw [htr] at h5
              exact absurd h5 Bool.false_ne_true)
         · simp [hE]
         done)
      | (refine StateInv_insert s.registry _ _ hs
           (InfoInv_push info0 _ owner cb en (some tv) ?_ rfl ?_ ?_ hI0) k info hk
         · simp [htr]
         · intro hne
           exact htr.symm
         · simp [hE, htr]
         done)

theorem runOps_inv (T : Nat) (ops : List HookOp) (s : SysState) (hs : StateInv s) :
    StateInv (runOps T ops s) := by
  induction ops generalizing s with
  | nil => exact hs
  | cons op rest ih =>
    cases op with
    | install owner cb en sa rr ta => exact ih _ (installOp_inv _ _ _ _ _ _ _ _ hs)
    | uninstall owner => exact ih _ (uninstallOp_inv _ _ hs)
    | enable owner => exact ih _ (enableOp_inv _ _ hs)
    | disable owner => exact ih _ (disableOp_inv _ _ hs)

/-- C4: after any sequence of install, uninstall, enable and disable
operations on a target, the `HookInfo` chain for that target is linked:
every entry's `call_next` is the NEXT ENTRY'S callback (whether or not
that entry is enabled), and the last entry's `call_next` is the
trampoline.  This is the amended statement: the code never rewires
`call_next` around disabled entries, so the spec's per-enabled-entry
property fails (see the counterexample). -/
theorem call_next_chain_linked (m : Nat → Nat) (T : Nat) (ops : List HookOp)
    (info : HookInfoM)
    (h : lookupReg (runOps T ops (initState m)).registry T = some info) :
    chainLinkedB info.entries (info.trampoline.getD 0) = true := by
  have hinit : StateInv (initState m) := by
    intro k i hk
    rw [initState] at hk
    exact absurd hk (by rw [lookupReg_nil]; exact fun hc => Option.noConfusion hc)
  exact (runOps_inv T ops (initState m) hinit T info h).2

theorem call_next_chain_linked_witness :
    chainLinkedB
      (((lookupReg (runOps 4096
          [HookOp.install 1 12289 true (some 1048576) (some ([0, 0, 0, 0, 0], 20))
            (some 2097152)]
          (initState fun _ => 0)).registry 4096).getD emptyInfo).entries)
      ((((lookupReg (runOps 4096
          [HookOp.install 1 12289 true (some 1048576) (some ([0, 0, 0, 0, 0], 20))
            (some 2097152)]
          (initState fun _ => 0)).registry 4096).getD emptyInfo).trampoline).getD 0)
      = true :=
  call_next_chain_linked (fun _ => 0) 4096
    [HookOp.install 1 12289 true (some 1048576) (some ([0, 0, 0, 0, 0], 20))
      (some 2097152)] _ rfl

/-- C4 counterexample: install two hooks (both enabled), then disable the
first-installed one.  The head entry is still enabled and its `call_next`
still points at the now-disabled entry's callback rather than skipping to
the trampoline, so the spec's claim that each enabled entry's `call_next`
resolves to the next ENABLED entry's callback (or the trampoline) fails. -/
theorem call_next_enabled_chain_cex :
    Option.map (fun info => enabledChainB info.entries (info.trampoline.getD 0))
      (lookupReg (runOps 4096
        [HookOp.install 1 12289 true (some 1048576) (some ([0, 0, 0, 0, 0], 20))
          (some 2097152),
         HookOp.install 2 12290 true none none none,
         HookOp.disable 1]
        (initState fun _ => 0)).registry 4096) = some false := by
  rfl

theorem getD_take_lt (l : List Nat) (n i : Nat) (h : i < n) :
    (l.take n).getD i 0 = l.getD i 0 := by
  simp only [List.getD, List.get?_eq_getElem?]
  rw [List.getElem?_take, if_pos h]

theorem getD_drop_add (l : List Nat) (n i : Nat) :
    (l.drop n).getD i 0 = l.getD (n + i) 0 := by
  simp only [List.getD, List.get?_eq_getElem?]
  rw [List.getElem?_drop]

theorem readBytes_length (m : Nat → Nat) (a n : Nat) : (readBytes m a n).length = n := by
  simp [readBytes]

/-- `atomic_patch` leaves exactly the patch bytes in `[addr, addr+n)`:
the head word (written last) and the tail (written first) together
reproduce the patch. -/
theorem atomic_patch_in (m : Nat → Nat) (a : Nat) (patch : List Nat) (i : Nat)
    (hne : patch.length ≠ 0) (hi : i < patch.length) :
    (Mem.atomic_patch m a patch true).2.1 (a + i) = patch.getD i 0 := by
  unfold Mem.atomic_patch
  rw [if_neg hne]
  rw [if_neg (by simp)]
  dsimp only []
  by_cases h4 : patch.length > 4
  · rw [if_pos h4]
    dsimp only []
    by_cases hi4 : i < 4
    · rw [writeBytes_getD_in _ a (patch.take 4) i (by simp; omega)]
      exact getD_take_lt patch 4 i hi4
    · rw [writeBytes_out _ _ _ _ (by right; simp; omega)]
      have hx : a + i = (a + 4) + (i - 4) := by omega
      rw [hx, writeBytes_getD_in _ _ _ _ (by simp; omega)]
      rw [getD_drop_add]
      have h9 : 4 + (i - 4) = i := by omega
      rw [h9]
  · rw [if_neg h4]
    dsimp only []
    rw [writeBytes_getD_in _ a (patch.take 4) i (by simp; omega)]
    exact getD_take_lt patch 4 i (by omega)

theorem readBytes_take (m : Nat → Nat) (a n : Nat) :
    (readBytes m a n).take n = readBytes m a n :=
  List.take_of_length_le (le_of_eq (readBytes_length m a n))

/-- C3: on a fresh target `T` (target nonzero, callback valid), a
successful install (detour-stub, relocation and trampoline allocations
all succeed, the trampoline placed outside the patched window) followed
immediately by `do_unhook` leaves the first `backup_size = K` bytes of
the target bit-identical to their pre-install values, and the registry
no longer holds a `HookInfo` for `T` (the chain emptied, so the entry is
erased). -/
theorem install_unhook_restores_target (m : Nat → Nat) (T owner cb : Nat) (en : Bool)
    (sba tra K : Nat) (words : List Nat)
    (hT : T ≠ 0) (hcb : ¬ (cb = 0 ∧ en = true)) (hK : 0 < K) (hdisj : T + K ≤ tra) :
    (∀ i, i < K →
      (uninstallOp
        (installOp (initState m) T owner cb en (some sba) (some (words, K)) (some tra)).1
        owner).mem (T + i) = m (T + i)) ∧
    lookupReg
      (uninstallOp
        (installOp (initState m) T owner cb en (some sba) (some (words, K)) (some tra)).1
        owner).registry T = none := by
  have hpc := choose_patch_sequence_ne_nil T sba
  refine ⟨fun i hi => ?_, ?_⟩
  · unfold installOp uninstallOp
    rw [if_neg hT, if_neg hcb]
    simp [initState, emptyInfo, lookupReg, insertReg, eraseReg, lookupHandle,
      insertHandle, eraseHandle, eraseOwner, restore_target, hpc, hT]
    rw [readBytes_take]
    rw [atomic_patch_in _ _ _ i (by rw [readBytes_length]; omega) (by rw [readBytes_length]; omega)]
    rw [readBytes_getD _ _ _ _ hi]
    rw [writeBytes_out _ _ _ _ (by left; omega)]
  · unfold installOp uninstallOp
    rw [if_neg hT, if_neg hcb]
    simp [initState, emptyInfo, lookupReg, insertReg, eraseReg, lookupHandle,
      insertHandle, eraseHandle, eraseOwner, hpc, hT]

theorem install_unhook_restores_target_witness :
    (∀ i, i < 20 →
      (uninstallOp
        (installOp (initState fun _ => 7) 4096 1 12289 true (some 1048576)
          (some ([0, 0, 0, 0, 0], 20)) (some 2097152)).1
        1).mem (4096 + i) = 7) ∧
    lookupReg
      (uninstallOp
        (installOp (initState fun _ => 7) 4096 1 12289 true (some 1048576)
          (some ([0, 0, 0, 0, 0], 20)) (some 2097152)).1
        1).registry 4096 = none :=
  install_unhook_restores_target (fun _ => 7) 4096 1 12289 true 1048576 2097152 20
    [0, 0, 0, 0, 0] (by decide) (by decide) (by decide) (by decide)
